import Mathlib

/-!
Verification of the hk_stock_sma indicator engine (src/app.py, src/daily_alert.py)
against its natural-language specification.  The pandas/yfinance code is shallowly
embedded: price series are lists of rationals, NaN cells are `Option.none` (or the
`NpFloat.nan` constructor where IEEE infinities matter), and dataframes are a record
of bars plus named derived columns.
-/

namespace HkStockSma

/-- A daily OHLCV bar, one row of the downloaded dataframe (spec section 3). -/
structure Bar where
  date : Int
  openP : ℚ
  high : ℚ
  low : ℚ
  close : ℚ
  volume : ℚ
deriving DecidableEq, Repr

/-- The point-in-time filter of get_data_v7 (app.py line 497):
`df = df[df.index <= end_dt]` keeps exactly the bars dated at or before the
reference date. -/
def get_data_v7_filter (s : List Bar) (d : Int) : List Bar :=
  s.filter (fun b => decide (b.date ≤ d))

/-- The last `n` elements of a list: the trailing window pandas feeds to a
rolling aggregate at the final position. -/
def lastN (n : Nat) (xs : List ℚ) : List ℚ :=
  xs.drop (xs.length - n)

/-- `series.rolling(window=n).mean()` (app.py line 522, daily_alert.py lines
143-144): at each position the mean of the trailing `n` values, `none` (NaN)
while fewer than `n` values exist (pandas default `min_periods = window`). -/
def rollingMean (n : Nat) (xs : List ℚ) : List (Option ℚ) :=
  (List.range xs.length).map fun i =>
    let w := lastN n (xs.take (i + 1))
    if w.length = n then some (w.sum / (n : ℚ)) else none

/-- The configured SMA window set, `periods_sma` in app.py line 520. -/
def periods_sma : List Nat := [7, 14, 28, 57, 106, 212]

/-- C1: for every close series and every configured window n, the rolling SMA at
position i equals the arithmetic mean of the n closes ending at i whenever
i ≥ n-1, is the explicit undefined marker `none` (not zero) whenever fewer than
n bars exist, and no position is dropped (output length equals input length). -/
theorem sma_rolling_spec (xs : List ℚ) (n i : Nat)
    (hn : n ∈ periods_sma) (hi : i < xs.length) :
    (rollingMean n xs).length = xs.length ∧
    (n - 1 ≤ i →
      (rollingMean n xs)[i]? = some (some (((xs.drop (i + 1 - n)).take n).sum / (n : ℚ)))) ∧
    (i < n - 1 → (rollingMean n xs)[i]? = some none) := by
  have hn0 : 0 < n := by
    have h : ∀ m ∈ periods_sma, 0 < m := by decide
    exact h n hn
  have hlen : (rollingMean n xs).length = xs.length := by
    simp [rollingMean]
  have hget : (rollingMean n xs)[i]? =
      some (let w := lastN n (xs.take (i + 1))
            if w.length = n then some (w.sum / (n : ℚ)) else none) := by
    simp only [rollingMean, List.getElem?_map, List.getElem?_range hi]
    rfl
  have htklen : (xs.take (i + 1)).length = i + 1 := by
    simp [List.length_take]
    omega
  refine ⟨hlen, ?_, ?_⟩
  · intro hni
    have hni' : n ≤ i + 1 := by omega
    have hw : lastN n (xs.take (i + 1)) = (xs.drop (i + 1 - n)).take n := by
      unfold lastN
      rw [htklen, List.drop_take]
      congr 1
      omega
    have hwlen : ((xs.drop (i + 1 - n)).take n).length = n := by
      rw [List.length_take, List.length_drop]
      omega
    rw [hget]
    simp [hw, hwlen]
  · intro hlt
    have hlt' : i + 1 < n := by omega
    have hw : lastN n (xs.take (i + 1)) = xs.take (i + 1) := by
      unfold lastN
      rw [htklen]
      have : i + 1 - n = 0 := by omega
      rw [this, List.drop_zero]
    rw [hget]
    simp only [hw, htklen]
    rw [if_neg (by omega)]

/-- Witness for C1 at a concrete series: the 7-window SMA of an 8-bar series at
position 6 is the mean of the first seven closes. -/
theorem sma_rolling_spec_witness :
    (rollingMean 7 [1, 2, 3, 4, 5, 6, 7, 8])[6]? =
      some (some (((([1, 2, 3, 4, 5, 6, 7, 8] : List ℚ).drop (6 + 1 - 7)).take 7).sum / (7 : ℚ))) :=
  (sma_rolling_spec [1, 2, 3, 4, 5, 6, 7, 8] 7 6 (by decide) (by decide)).2.1 (by decide)

/-- C2: the point-in-time view contains exactly the bars of the input series
dated at or before the reference date, and in particular its last bar is dated
at or before the reference date (no look-ahead). -/
theorem ptview_spec (s : List Bar) (d : Int) :
    (∀ b : Bar, b ∈ get_data_v7_filter s d ↔ b ∈ s ∧ b.date ≤ d) ∧
    (∀ b : Bar, (get_data_v7_filter s d).getLast? = some b → b.date ≤ d) := by
  constructor
  · intro b
    simp [get_data_v7_filter, List.mem_filter]
  · intro b hb
    have hmem := List.mem_of_getLast?_eq_some hb
    have := (List.mem_filter.mp hmem).2
    simpa using this

/-- Witness for C2: with bars dated 1 and 5 and reference date 3, the bar dated
1 is in the view and the last bar of the view is dated at or before 3. -/
theorem ptview_spec_witness :
    (Bar.mk 1 1 1 1 1 1) ∈ get_data_v7_filter [Bar.mk 1 1 1 1 1 1, Bar.mk 5 1 1 1 1 1] 3 ∧
    (Bar.mk 1 1 1 1 1 1).date ≤ 3 := by
  refine ⟨?_, ?_⟩
  · exact ((ptview_spec [Bar.mk 1 1 1 1 1 1, Bar.mk 5 1 1 1 1 1] 3).1
      (Bar.mk 1 1 1 1 1 1)).mpr ⟨by decide, by decide⟩
  · exact (ptview_spec [Bar.mk 1 1 1 1 1 1, Bar.mk 5 1 1 1 1 1] 3).2
      (Bar.mk 1 1 1 1 1 1) (by decide)

/-- The SMAC cell of the matrix (app.py line 621):
`smac_val = ((current_close - val_curr) / val_curr) * 100 if val_curr else 0`.
A NaN SMA (insufficient data, `none`) is truthy in Python, so the arithmetic
propagates NaN: modelled as `none`.  An SMA equal to 0 is falsy, so the code
publishes the literal number 0. -/
def smac_val (current_close : ℚ) (sma : Option ℚ) : Option ℚ :=
  match sma with
  | none => none
  | some s => some (if s = 0 then 0 else (current_close - s) / s * 100)

/-- C3 (code bug): at close 5 and SMA 0 the code publishes the number 0 for
SMAC instead of an undefined marker, contradicting the DivisionGuard rule of
the spec (a zero denominator must yield Undefined, never a silent 0). -/
theorem smac_zero_fallback_eval :
    smac_val 5 (some 0) = some 0 ∧ smac_val 5 (some 0) ≠ none := by
  constructor
  · rfl
  · intro h
    simp [smac_val] at h

/-- Python truthiness of the shares-outstanding value (app.py line 530):
`if shares_outstanding:` is false for `None` and for 0. -/
def has_turnover (shares : Option ℚ) : Bool :=
  match shares with
  | some s => decide (s ≠ 0)
  | none => false

/-- The Turnover_Rate column (app.py lines 529-534): per-bar
`volume / shares_outstanding * 100` when shares are available, otherwise the
column is filled with the constant 0.0. -/
def turnover_rate_col (shares : Option ℚ) (volumes : List ℚ) : List ℚ :=
  match shares with
  | some s => if s = 0 then volumes.map (fun _ => 0) else volumes.map (fun v => v / s * 100)
  | none => volumes.map (fun _ => 0)

/-- The rendered turnover matrix (app.py lines 790-818): withheld behind an
error message when `has_turnover` is false. -/
def turnover_matrix_published (shares : Option ℚ) (volumes : List ℚ) : Option (List ℚ) :=
  if has_turnover shares then some (turnover_rate_col shares volumes) else none

/-- C4 (code bug): with shares-outstanding absent and a single bar of volume
50000, the code stores the fabricated number 0 as the turnover rate (the
rendered matrix is gated off, but the turnover series itself is 0, not an
Unavailable marker). -/
theorem turnover_zero_fill_eval :
    turnover_rate_col none [50000] = [0] ∧
    has_turnover none = false ∧
    turnover_matrix_published none [50000] = none := by
  refine ⟨rfl, rfl, rfl⟩

/-- The CDM target price (app.py line 180, daily_alert.py line 133):
`p_target = sma1 * 0.7 * (t1/n) + sma2 * 0.5 * ((n - t1)/n)`. -/
def cdm_target (sma1 sma2 : ℚ) (t1 n : Int) : ℚ :=
  sma1 * (7 / 10) * ((t1 : ℚ) / (n : ℚ)) + sma2 * (1 / 2) * (((n : ℚ) - (t1 : ℚ)) / (n : ℚ))

/-- The CDM trigger test (app.py lines 181-185, daily_alert.py lines 134-136):
`diff = abs(curr_price - p_target) / p_target`, triggered when
`diff < 0.05`.  A zero target gives infinity or NaN in floats, whose
comparison with 0.05 is false, hence the explicit guard. -/
def cdm_triggered (curr_price target : ℚ) : Bool :=
  if target = 0 then false else decide (|curr_price - target| / target < 1 / 20)

/-- C5: with baseline means sma1 and sma2, spans t1 and n with n positive, the
CDM target is sma1 * 0.7 * (t1/n) + sma2 * 0.5 * ((n-t1)/n); the signal
triggers exactly when the relative deviation of the close from the (nonzero)
target is below 0.05; and sma1=100, sma2=120, t1=10, n=20 give target 65. -/
theorem cdm_spec (sma1 sma2 : ℚ) (t1 n : Int) (close : ℚ)
    (hn : 0 < n) (ht : cdm_target sma1 sma2 t1 n ≠ 0) :
    cdm_target sma1 sma2 t1 n =
      sma1 * (7 / 10) * ((t1 : ℚ) / (n : ℚ)) + sma2 * (1 / 2) * (((n : ℚ) - (t1 : ℚ)) / (n : ℚ)) ∧
    (cdm_triggered close (cdm_target sma1 sma2 t1 n) = true ↔
      |close - cdm_target sma1 sma2 t1 n| / cdm_target sma1 sma2 t1 n < 1 / 20) ∧
    cdm_target 100 120 10 20 = 65 := by
  refine ⟨rfl, ?_, by norm_num [cdm_target]⟩
  simp [cdm_triggered, ht]

/-- Witness for C5: the configured example evaluates to target 65, and with a
close of 66 the deviation 1/65 is below 0.05 so the signal triggers. -/
theorem cdm_spec_witness :
    cdm_target 100 120 10 20 = 65 ∧ cdm_triggered 66 (cdm_target 100 120 10 20) = true := by
  have h := cdm_spec 100 120 10 20 66 (by decide) (by norm_num [cdm_target])
  refine ⟨h.2.2, ?_⟩
  rw [h.2.1, h.2.2]
  norm_num

/-- The FZM trigger (app.py lines 201-204, daily_alert.py lines 152-155):
`cond_a = price > sma_s and price > sma_m`, `cond_b = willr < -80`, triggered
when both hold.  A NaN Williams reading (`none`) compares false. -/
def fzm_triggered (curr_price sma_s sma_m : ℚ) (willr : Option ℚ) : Bool :=
  (decide (curr_price > sma_s) && decide (curr_price > sma_m)) &&
    (match willr with
     | some w => decide (w < -80)
     | none => false)

/-- C6: the FZM signal triggers exactly when the close is strictly above both
the short (7) and mid (14) SMA and the Williams reading is strictly below -80;
at close 105, SMAs 100 and 102, it triggers with a reading of -85 and does not
with a reading of -50. -/
theorem fzm_spec :
    (∀ c s m w : ℚ, fzm_triggered c s m (some w) = true ↔ (c > s ∧ c > m ∧ w < -80)) ∧
    fzm_triggered 105 100 102 (some (-85)) = true ∧
    fzm_triggered 105 100 102 (some (-50)) = false := by
  refine ⟨?_, by decide, by decide⟩
  intro c s m w
  simp [fzm_triggered, and_assoc]

/-- Maximum of a nonempty list, as `series.rolling(n).max()` at the last
position; `none` on the empty list. -/
def listMax : List ℚ → Option ℚ
  | [] => none
  | x :: xs => some (xs.foldl max x)

/-- Minimum of a nonempty list, as `series.rolling(n).min()` at the last
position; `none` on the empty list. -/
def listMin : List ℚ → Option ℚ
  | [] => none
  | x :: xs => some (xs.foldl min x)

theorem le_foldl_max (xs : List ℚ) (a : ℚ) : a ≤ xs.foldl max a := by
  induction xs generalizing a with
  | nil => exact le_refl a
  | cons b bs ih => exact le_trans (le_max_left a b) (ih (max a b))

theorem mem_le_foldl_max (xs : List ℚ) (a y : ℚ) (h : y ∈ xs) : y ≤ xs.foldl max a := by
  induction xs generalizing a with
  | nil => cases h
  | cons b bs ih =>
    rcases List.mem_cons.mp h with rfl | hmem
    · exact le_trans (le_max_right a y) (le_foldl_max bs (max a y))
    · exact ih (max a b) hmem

theorem foldl_min_le (xs : List ℚ) (a : ℚ) : xs.foldl min a ≤ a := by
  induction xs generalizing a with
  | nil => exact le_refl a
  | cons b bs ih => exact le_trans (ih (min a b)) (min_le_left a b)

theorem foldl_min_le_mem (xs : List ℚ) (a y : ℚ) (h : y ∈ xs) : xs.foldl min a ≤ y := by
  induction xs generalizing a with
  | nil => cases h
  | cons b bs ih =>
    rcases List.mem_cons.mp h with rfl | hmem
    · exact le_trans (foldl_min_le bs (min a y)) (min_le_right a y)
    · exact ih (min a b) hmem

theorem listMax_ge_mem (xs : List ℚ) (m y : ℚ) (hm : listMax xs = some m) (hy : y ∈ xs) :
    y ≤ m := by
  cases xs with
  | nil => cases hy
  | cons x rest =>
    have hm' : rest.foldl max x = m := by
      simpa [listMax] using hm
    rcases List.mem_cons.mp hy with rfl | hmem
    · exact hm' ▸ le_foldl_max rest y
    · exact hm' ▸ mem_le_foldl_max rest x y hmem

theorem listMin_le_mem (xs : List ℚ) (m y : ℚ) (hm : listMin xs = some m) (hy : y ∈ xs) :
    m ≤ y := by
  cases xs with
  | nil => cases hy
  | cons x rest =>
    have hm' : rest.foldl min x = m := by
      simpa [listMin] using hm
    rcases List.mem_cons.mp hy with rfl | hmem
    · exact hm' ▸ foldl_min_le rest y
    · exact hm' ▸ foldl_min_le_mem rest x y hmem

/-- A float cell as numpy produces it: a number, NaN, or a signed infinity. -/
inductive NpFloat where
  | num (q : ℚ)
  | nan
  | pinf
  | ninf
deriving DecidableEq, Repr

/-- Numpy float division of finite values: `0/0` is NaN, `x/0` is a signed
infinity, otherwise exact division. -/
def npDiv (a b : ℚ) : NpFloat :=
  if b = 0 then (if a = 0 then NpFloat.nan else if 0 < a then NpFloat.pinf else NpFloat.ninf)
  else NpFloat.num (a / b)

/-- Multiplication of a numpy float by the constant -100. -/
def npNeg100Mul : NpFloat → NpFloat
  | NpFloat.num q => NpFloat.num (-100 * q)
  | NpFloat.nan => NpFloat.nan
  | NpFloat.pinf => NpFloat.ninf
  | NpFloat.ninf => NpFloat.pinf

/-- calculate_willr from daily_alert.py lines 64-71, at the last position of
the series: the denominator `hh - ll` is replaced by NaN when zero, so a zero
range yields an undefined reading (`none`). -/
def calculate_willr (H L C : List ℚ) (n : Nat) : Option ℚ :=
  if n ≤ H.length ∧ n ≤ L.length ∧ 0 < n then
    match listMax (lastN n H), listMin (lastN n L), C.getLast? with
    | some hh, some ll, some c =>
        if hh - ll = 0 then none else some (-100 * ((hh - c) / (hh - ll)))
    | _, _, _ => none
  else none

/-- calculate_willr from app.py lines 139-143, at the last position: no
explicit zero-range guard, the division is raw numpy float division. -/
def calculate_willr_app (H L C : List ℚ) (n : Nat) : NpFloat :=
  if n ≤ H.length ∧ n ≤ L.length ∧ 0 < n then
    match listMax (lastN n H), listMin (lastN n L), C.getLast? with
    | some hh, some ll, some c => npNeg100Mul (npDiv (hh - c) (hh - ll))
    | _, _, _ => NpFloat.nan
  else NpFloat.nan

theorem getLast_mem_lastN (xs : List ℚ) (n : Nat) (x : ℚ)
    (hn : 0 < n) (hx : xs.getLast? = some x) : x ∈ lastN n xs := by
  have hne : xs ≠ [] := by
    intro h
    rw [h] at hx
    cases hx
  have hlen : 0 < xs.length := List.length_pos.mpr hne
  have hdrop : (xs.drop (xs.length - n)).getLast? = some x := by
    rw [List.getLast?_drop, if_neg (by omega)]
    exact hx
  exact List.mem_of_getLast?_eq_some hdrop

theorem getLast?_map_of_getLast? (f : Bar → ℚ) (bs : List Bar) (b : Bar)
    (h : bs.getLast? = some b) : (bs.map f).getLast? = some (f b) := by
  rw [List.getLast?_eq_getElem?] at h ⊢
  rw [List.getElem?_map, List.length_map, h]
  rfl

/-- C7: for any high/low/close series whose bars satisfy the bar invariant
(low at or below close at or below high, pointwise), the Williams reading over
period n equals -100 * (max high over n - close) / (max high over n - min low
over n) when the n-bar range is nonzero; when the range is zero both the
guarded version (daily_alert.py) and the unguarded numpy version (app.py)
yield an undefined value (none / NaN), never an arbitrary or infinite number. -/
theorem willr_spec (H L C : List ℚ) (n : Nat) (hh ll c : ℚ)
    (hlenH : H.length = C.length) (hlenL : L.length = C.length)
    (hn : 0 < n) (hnle : n ≤ C.length)
    (hinv : ∀ i (hiL : i < L.length) (hiC : i < C.length) (hiH : i < H.length),
      L[i] ≤ C[i] ∧ C[i] ≤ H[i])
    (hhh : listMax (lastN n H) = some hh)
    (hll : listMin (lastN n L) = some ll)
    (hc : C.getLast? = some c) :
    (hh - ll ≠ 0 →
      calculate_willr H L C n = some (-100 * ((hh - c) / (hh - ll))) ∧
      calculate_willr_app H L C n = NpFloat.num (-100 * ((hh - c) / (hh - ll)))) ∧
    (hh - ll = 0 →
      calculate_willr H L C n = none ∧
      calculate_willr_app H L C n = NpFloat.nan) := by
  have hcond : n ≤ H.length ∧ n ≤ L.length ∧ 0 < n := by
    refine ⟨by omega, by omega, hn⟩
  have hClen : 0 < C.length := by omega
  have hcidx : C[C.length - 1]? = some c := by
    rw [← List.getLast?_eq_getElem?]
    exact hc
  have hcval : ∃ h : C.length - 1 < C.length, C[C.length - 1] = c :=
    List.getElem?_eq_some_iff.mp hcidx
  rcases hcval with ⟨hidx, hcval⟩
  have hidxL : C.length - 1 < L.length := by omega
  have hidxH : C.length - 1 < H.length := by omega
  have hLlast : L.getLast? = some (L.get ⟨C.length - 1, hidxL⟩) := by
    rw [List.getLast?_eq_getElem?]
    have heqidx : L.length - 1 = C.length - 1 := by omega
    rw [heqidx]
    exact (List.getElem?_eq_some_iff.mpr ⟨hidxL, rfl⟩)
  have hHlast : H.getLast? = some (H.get ⟨C.length - 1, hidxH⟩) := by
    rw [List.getLast?_eq_getElem?]
    have heqidx : H.length - 1 = C.length - 1 := by omega
    rw [heqidx]
    exact (List.getElem?_eq_some_iff.mpr ⟨hidxH, rfl⟩)
  have hLmem : L.get ⟨C.length - 1, hidxL⟩ ∈ lastN n L :=
    getLast_mem_lastN L n _ hn hLlast
  have hHmem : H.get ⟨C.length - 1, hidxH⟩ ∈ lastN n H :=
    getLast_mem_lastN H n _ hn hHlast
  have hbound := hinv (C.length - 1) hidxL hidx hidxH
  have hlc : ll ≤ c := by
    have h1 : ll ≤ L.get ⟨C.length - 1, hidxL⟩ := listMin_le_mem _ _ _ hll hLmem
    have h2 := hbound.1
    rw [hcval] at h2
    exact le_trans h1 h2
  have hch : c ≤ hh := by
    have h1 : H.get ⟨C.length - 1, hidxH⟩ ≤ hh := listMax_ge_mem _ _ _ hhh hHmem
    have h2 := hbound.2
    rw [hcval] at h2
    exact le_trans h2 h1
  constructor
  · intro hne
    constructor
    · unfold calculate_willr
      rw [if_pos hcond, hhh, hll, hc]
      simp [hne]
    · unfold calculate_willr_app
      rw [if_pos hcond, hhh, hll, hc]
      simp [npDiv, npNeg100Mul, hne]
  · intro heq
    have hceq : hh - c = 0 := by
      have : hh = ll := by linarith
      have : c = hh := le_antisymm hch (this ▸ hlc)
      rw [this]
      ring
    constructor
    · unfold calculate_willr
      rw [if_pos hcond, hhh, hll, hc]
      simp [heq]
    · unfold calculate_willr_app
      rw [if_pos hcond, hhh, hll, hc]
      simp [npDiv, npNeg100Mul, heq, hceq]

/-- Witness for C7 at a concrete one-bar series: highs [10], lows [5],
closes [7], period 1 give the reading -100 * ((10 - 7) / (10 - 5)) = -60. -/
theorem willr_spec_witness :
    calculate_willr [10] [5] [7] 1 = some (-100 * ((10 - 7) / (10 - 5))) ∧
    calculate_willr_app [10] [5] [7] 1 = NpFloat.num (-100 * ((10 - 7) / (10 - 5))) :=
  (willr_spec [10] [5] [7] 1 10 5 7 rfl rfl (by decide) (by decide)
    (by decide) rfl rfl rfl).1 (by norm_num)

/-- The base windows of the SMAC-difference rows, `base_smas` in app.py
line 650: the rows are keyed 14, 28 and 57, each using its own SMA as
denominator. -/
def base_smas_periods : List Nat := [14, 28, 57]

/-- One cell of an SMAC-difference row (app.py lines 651-661):
`((curr_sma - base_val) / base_val) * 100` when both values are nonzero,
a dash (no number, `none`) when either is zero. -/
def smac_diff (base_val curr_sma : ℚ) : Option ℚ :=
  if base_val = 0 ∨ curr_sma = 0 then none
  else some ((curr_sma - base_val) / base_val * 100)

/-- C8 counterexample: with SMA_14 = 20, SMA_28 = 30 and SMA_106 = 50, the
published cell for the adjacent pair (14, 28) is 50 (percent of the base-14
SMA), while the claimed formula (SMA_28 - SMA_14) / SMA_106 gives 1/5: the
denominator is the row's own base SMA, not the 106-window SMA. -/
theorem smac_diff_cex :
    smac_diff 20 30 = some 50 ∧
    ((30 : ℚ) - 20) / 50 = 1 / 5 ∧
    ¬ ((50 : ℚ) = 1 / 5) := by
  refine ⟨?_, by norm_num, by norm_num⟩
  norm_num [smac_diff]

/-- C8 amended: each SMAC-difference cell for base window b and column window
p equals (SMA_p - SMA_b) / SMA_b * 100 when both SMAs are nonzero, and is a
dash (no number) when either is zero; the denominator is the base SMA of the
row, the same for every cell of that row. -/
theorem smac_diff_rows_spec (base_val curr_sma : ℚ) :
    (base_val ≠ 0 → curr_sma ≠ 0 →
      smac_diff base_val curr_sma = some ((curr_sma - base_val) / base_val * 100)) ∧
    (base_val = 0 ∨ curr_sma = 0 → smac_diff base_val curr_sma = none) := by
  constructor
  · intro hb hc
    unfold smac_diff
    rw [if_neg (by tauto)]
  · intro h
    unfold smac_diff
    rw [if_pos h]

/-- Witness for C8 amended, at base SMA 20 and column SMA 30. -/
theorem smac_diff_rows_spec_witness :
    smac_diff 20 30 = some (((30 : ℚ) - 20) / 20 * 100) :=
  (smac_diff_rows_spec 20 30).1 (by norm_num) (by norm_num)

/-- A float column of the dataframe. -/
def Col : Type := List NpFloat

/-- Conversion of an optional exact value into a numpy float cell. -/
def npOfOpt : Option ℚ → NpFloat
  | some q => NpFloat.num q
  | none => NpFloat.nan

/-- A pandas dataframe as the caller sees it: the OHLCV bars plus the named
derived columns written into it so far. -/
structure Frame where
  bars : List Bar
  extra : List (String × List NpFloat)
deriving DecidableEq, Repr

/-- The Close column of a frame. -/
def closes (f : Frame) : List ℚ := f.bars.map Bar.close

/-- The High column of a frame. -/
def highs (f : Frame) : List ℚ := f.bars.map Bar.high

/-- The Low column of a frame. -/
def lows (f : Frame) : List ℚ := f.bars.map Bar.low

/-- Column assignment `df[k] = v`: replaces the column if the name exists,
otherwise appends it. -/
def setCol (cols : List (String × List NpFloat)) (k : String) (v : List NpFloat) :
    List (String × List NpFloat) :=
  if cols.any (fun kv => decide (kv.1 = k)) then
    cols.map (fun kv => if kv.1 = k then (k, v) else kv)
  else cols ++ [(k, v)]

/-- Column lookup by name. -/
def lookupCol (cols : List (String × List NpFloat)) (k : String) : Option (List NpFloat) :=
  match cols with
  | [] => none
  | kv :: rest => if kv.1 = k then some kv.2 else lookupCol rest k

/-- The rolling Williams column of app.py line 194, position by position. -/
def willr_series_app (H L C : List ℚ) (n : Nat) : List NpFloat :=
  (List.range C.length).map fun i =>
    calculate_willr_app (H.take (i + 1)) (L.take (i + 1)) (C.take (i + 1)) n

/-- The dataframe as left behind by run_analysis_logic (app.py lines 192-194):
the function writes the columns SMA7, SMA14 and WillR into the dataframe the
caller passed in. -/
def run_analysis_logic_cols (f : Frame) : Frame :=
  { bars := f.bars,
    extra :=
      setCol
        (setCol
          (setCol f.extra "SMA7" ((rollingMean 7 (closes f)).map npOfOpt))
          "SMA14" ((rollingMean 14 (closes f)).map npOfOpt))
        "WillR" (willr_series_app (highs f) (lows f) (closes f) 35) }

/-- C9 counterexample: on a one-bar frame with no derived columns, the frame
after run_analysis_logic differs from the frame before it (the call has
written indicator columns into the caller-supplied dataframe), so the engine
does not leave its input unchanged. -/
theorem run_analysis_mutation_cex :
    run_analysis_logic_cols (Frame.mk [Bar.mk 0 1 2 1 1 1] []) ≠
      Frame.mk [Bar.mk 0 1 2 1 1 1] [] := by
  decide

theorem lookupCol_append_single (cols : List (String × List NpFloat))
    (k kq : String) (v : List NpFloat) (h : kq ≠ k) :
    lookupCol (cols ++ [(k, v)]) kq = lookupCol cols kq := by
  induction cols with
  | nil =>
    simp only [List.nil_append, lookupCol]
    rw [if_neg (fun hkk : (k, v).1 = kq => h hkk.symm)]
  | cons kv rest ih =>
    simp only [List.cons_append, lookupCol, List.append_eq]
    rw [ih]

theorem lookupCol_map_set (cols : List (String × List NpFloat))
    (k kq : String) (v : List NpFloat) (h : kq ≠ k) :
    lookupCol (cols.map (fun kv => if kv.1 = k then (k, v) else kv)) kq =
      lookupCol cols kq := by
  induction cols with
  | nil => rfl
  | cons kv rest ih =>
    by_cases hk : kv.1 = k
    · simp only [List.map_cons, if_pos hk, lookupCol]
      rw [if_neg (fun hkk : (k, v).1 = kq => h hkk.symm),
        if_neg (fun hkk : kv.1 = kq => h (hkk.symm.trans hk))]
      exact ih
    · simp only [List.map_cons, if_neg hk, lookupCol]
      by_cases hq : kv.1 = kq
      · rw [if_pos hq, if_pos hq]
      · rw [if_neg hq, if_neg hq]
        exact ih

theorem lookupCol_setCol_ne (cols : List (String × List NpFloat))
    (k kq : String) (v : List NpFloat) (h : kq ≠ k) :
    lookupCol (setCol cols k v) kq = lookupCol cols kq := by
  unfold setCol
  split
  · exact lookupCol_map_set cols k kq v h
  · exact lookupCol_append_single cols k kq v h

/-- C9 amended: run_analysis_logic mutates the caller-supplied dataframe only
by writing the derived columns SMA7, SMA14 and WillR; the OHLCV bars
themselves (values and order) and every other column are left unchanged. -/
theorem run_analysis_frame_effect (f : Frame) (k : String)
    (hk : k ≠ "SMA7" ∧ k ≠ "SMA14" ∧ k ≠ "WillR") :
    (run_analysis_logic_cols f).bars = f.bars ∧
    lookupCol (run_analysis_logic_cols f).extra k = lookupCol f.extra k := by
  refine ⟨rfl, ?_⟩
  unfold run_analysis_logic_cols
  rw [lookupCol_setCol_ne _ _ _ _ hk.2.2, lookupCol_setCol_ne _ _ _ _ hk.2.1,
    lookupCol_setCol_ne _ _ _ _ hk.1]

/-- Witness for C9 amended: on a one-bar frame carrying an unrelated column
named X, the call preserves the bars and the X column. -/
theorem run_analysis_frame_effect_witness :
    (run_analysis_logic_cols (Frame.mk [Bar.mk 0 1 2 1 1 1] [("X", [NpFloat.num 3])])).bars =
      [Bar.mk 0 1 2 1 1 1] ∧
    lookupCol (run_analysis_logic_cols
        (Frame.mk [Bar.mk 0 1 2 1 1 1] [("X", [NpFloat.num 3])])).extra "X" =
      some [NpFloat.num 3] := by
  have h := run_analysis_frame_effect (Frame.mk [Bar.mk 0 1 2 1 1 1] [("X", [NpFloat.num 3])])
    "X" ⟨by decide, by decide, by decide⟩
  exact ⟨h.1, h.2.trans (by decide)⟩

/-- The per-symbol input of run_scanner (daily_alert.py lines 91-117): the
downloaded bars, the optional CDM box dates from the watchlist, and the
wall-clock date used for the elapsed-time weights. -/
structure ScanInput where
  bars : List Bar
  box1 : Option (Int × Int)
  box2 : Option (Int × Int)
  today : Int
deriving DecidableEq, Repr

/-- `df[(df.index >= s) & (df.index <= e)]['Close'].mean()` (daily_alert.py
lines 126-127): the mean of the closes dated in the box, NaN (`none`) when
the box holds no bar. -/
def box_mean (bars : List Bar) (s e : Int) : Option ℚ :=
  let xs := (bars.filter (fun b => decide (s ≤ b.date ∧ b.date ≤ e))).map Bar.close
  if xs.length = 0 then none else some (xs.sum / (xs.length : ℚ))

/-- The CDM branch of run_scanner (daily_alert.py lines 115-138): needs both
boxes configured, today past the first box start, defined box means and a
positive elapsed-day count; then the target/deviation test. -/
def cdm_alert (inp : ScanInput) : Bool :=
  match inp.box1, inp.box2 with
  | some (s1, e1), some (s2, e2) =>
      if s1 < inp.today then
        match box_mean inp.bars s1 e1, box_mean inp.bars s2 e2,
              (inp.bars.map Bar.close).getLast? with
        | some sma1, some sma2, some c =>
            if 0 < inp.today - s1 then
              cdm_triggered c (cdm_target sma1 sma2 (e1 - s1) (inp.today - s1))
            else false
        | _, _, _ => false
      else false
  | _, _ => false

/-- The last cell of a rolling column, flattening the NaN marker. -/
def optLast (xs : List (Option ℚ)) : Option ℚ :=
  match xs.getLast? with
  | some v => v
  | none => none

/-- The FZM branch of run_scanner (daily_alert.py lines 142-157): last close
against the last 7- and 14-window SMA values and the 35-period Williams
reading; NaN readings compare false. -/
def fzm_alert (inp : ScanInput) : Bool :=
  match (inp.bars.map Bar.close).getLast? with
  | some c =>
      (match optLast (rollingMean 7 (inp.bars.map Bar.close)),
             optLast (rollingMean 14 (inp.bars.map Bar.close)) with
       | some s, some m =>
           fzm_triggered c s m
             (calculate_willr (inp.bars.map Bar.high) (inp.bars.map Bar.low)
               (inp.bars.map Bar.close) 35)
       | _, _ => false)
  | none => false

/-- One iteration of the scanner loop (daily_alert.py lines 96-166): a series
of fewer than 50 bars is skipped outright (`none`: no evaluation, no alert);
otherwise both signals are evaluated and an alert is sent exactly when at
least one of them triggered. -/
def scan_one (inp : ScanInput) : Option Bool :=
  if inp.bars.length < 50 then none
  else some (cdm_alert inp || fzm_alert inp)

/-- The scanner loop over the whole watchlist: every symbol is processed, each
independently of the others. -/
def run_scanner (inps : List ScanInput) : List (Option Bool) :=
  inps.map scan_one

/-- C10: the scanner visits every watchlist symbol (one outcome per input, so
a skipped symbol never stops the loop), a symbol with fewer than 50 bars is
skipped with no evaluation and no alert, and a symbol with at least 50 bars is
evaluated, alerting exactly when CDM or FZM triggered. -/
theorem scanner_skip_spec (inps : List ScanInput) (i : Nat) (hi : i < inps.length) :
    (run_scanner inps).length = inps.length ∧
    (run_scanner inps)[i]? = some (scan_one inps[i]) ∧
    (inps[i].bars.length < 50 → scan_one inps[i] = none) ∧
    (50 ≤ inps[i].bars.length →
      scan_one inps[i] = some (cdm_alert inps[i] || fzm_alert inps[i])) := by
  refine ⟨by simp [run_scanner], ?_, ?_, ?_⟩
  · rw [run_scanner, List.getElem?_map, List.getElem?_eq_getElem hi]
    rfl
  · intro hlt
    unfold scan_one
    rw [if_pos hlt]
  · intro hge
    unfold scan_one
    rw [if_neg (by omega)]

/-- Witness for C10: a watchlist of one empty-series symbol is fully processed
and that symbol is skipped without evaluation. -/
theorem scanner_skip_spec_witness :
    (run_scanner [ScanInput.mk [] none none 0]).length = 1 ∧
    scan_one (ScanInput.mk [] none none 0) = none := by
  have h := scanner_skip_spec [ScanInput.mk [] none none 0] 0 (by decide)
  exact ⟨h.1, h.2.2.1 (by decide)⟩

end HkStockSma
